import Mathlib

/-!
# Verification of the book-library normalization engine

Shallow embedding of the heuristic extraction/normalization engine of the
book-library repository (`parse_books.py`, `parse_preparsed.py`,
`fetch_covers.py`).  Python strings are modelled as `List Char`; Python
`None` as `Option.none`; the fixed regular expressions of the source are
modelled as direct, executable pattern functions whose behaviour matches
the Python `re` semantics (leftmost match, ordered alternation, greedy
repetition over disjoint character classes).  The source files are
mojibake-encoded: some string literals in them contain double-encoded
characters (for example the month key spelled `m` `Ã` `¤` `r`
`z`); the embedding reproduces those literals exactly as Python reads
them from the files.
-/

namespace BookLib

/-- Python `str.strip` whitespace set (ASCII part; the inputs handled by the
scripts contain no exotic Unicode spaces). -/
def isSpaceC (c : Char) : Bool :=
  c = ' ' || c = '\t' || c = '\n' || c = '\r' || c = '\x0b' || c = '\x0c'

/-- Leading-whitespace strip. -/
def trimLeft (l : List Char) : List Char := l.dropWhile isSpaceC

/-- Trailing-whitespace strip. -/
def trimRight (l : List Char) : List Char := (l.reverse.dropWhile isSpaceC).reverse

/-- Python `str.strip()`. -/
def trim (l : List Char) : List Char := trimRight (trimLeft l)

/-- Python `str.lower()` restricted to the character repertoire the scripts
manipulate: ASCII letters plus the German uppercase umlauts. -/
def toLowerC (c : Char) : Char :=
  if 65 ≤ c.toNat ∧ c.toNat ≤ 90 then Char.ofNat (c.toNat + 32)
  else if c = 'Ä' then 'ä'
  else if c = 'Ö' then 'ö'
  else if c = 'Ü' then 'ü'
  else c

def lowerL (l : List Char) : List Char := l.map toLowerC

/-- Regex `\d`. -/
def isDigitC (c : Char) : Bool := decide (48 ≤ c.toNat ∧ c.toNat ≤ 57)

def digitVal (c : Char) : Nat := c.toNat - 48

/-- Python `int(...)` on a digit string. -/
def digitsVal (l : List Char) : Nat := l.foldl (fun a c => 10 * a + digitVal c) 0

def isUpperA (c : Char) : Bool := decide (65 ≤ c.toNat ∧ c.toNat ≤ 90)

def isLowerA (c : Char) : Bool := decide (97 ≤ c.toNat ∧ c.toNat ≤ 122)

/-- Regex `\w` (word character) for the `\b` boundaries used by the scripts:
ASCII alphanumerics, underscore, and the German letters that occur in the
data.  (Python's `\w` is full-Unicode; only this repertoire is relevant to
the modelled corpus, and none of the general theorems below depend on the
exact set.) -/
def isWordC (c : Char) : Bool :=
  isUpperA c || isLowerA c || isDigitC c || c = '_' ||
  c = 'ä' || c = 'ö' || c = 'ü' ||
  c = 'Ä' || c = 'Ö' || c = 'Ü' || c = 'ß'

/-- Whether `pat` is a prefix of `l`. -/
def startsWithL : List Char → List Char → Bool
  | [], _ => true
  | _ :: _, [] => false
  | p :: ps, c :: cs => p = c && startsWithL ps cs

/-- Python `pat in s` substring containment. -/
def containsL (pat : List Char) : List Char → Bool
  | [] => pat.isEmpty
  | c :: cs => startsWithL pat (c :: cs) || containsL pat cs

/-- String literal to character list. -/
def lit (s : String) : List Char := s.data

/-! ## Date Normalizer, free-text variant (`parse_books.parse_date`) -/

/-- The month table of `parse_books.parse_date`, in source order (the key
for March is the mojibake spelling `m` `Ã` `¤` `r` `z` exactly as
the file stores it). -/
def monthsB : List (List Char × Nat) :=
  [(lit ("jan"), 1), (lit ("januar"), 1), (lit ("feb"), 2), (lit ("februar"), 2),
   (lit ("mÃ¤rz"), 3), (lit ("mar"), 3),
   (lit ("april"), 4), (lit ("apr"), 4), (lit ("mai"), 5), (lit ("juni"), 6),
   (lit ("juli"), 7), (lit ("aug"), 8),
   (lit ("august"), 8), (lit ("sep"), 9), (lit ("sept"), 9), (lit ("september"), 9),
   (lit ("okt"), 10),
   (lit ("oktober"), 10), (lit ("nov"), 11), (lit ("november"), 11), (lit ("dez"), 12),
   (lit ("dezember"), 12)]

/-- First table entry (in table order) whose key occurs as a substring of
`l`; models the `for month_name, month_num in months.items()` loop. -/
def firstMonth : List (List Char × Nat) → List Char → Option Nat
  | [], _ => none
  | p :: ps, l => if containsL p.1 l then some p.2 else firstMonth ps l

/-- Trailing `\b` after a match whose last character is a digit: end of
input or a non-word character. -/
def bAfter : List Char → Bool
  | [] => true
  | c :: _ => !isWordC c

/-- Alternative `20\d{2}` with its trailing `\b`. -/
def alt20 (l : List Char) : Option Nat :=
  match l with
  | '2' :: '0' :: c3 :: c4 :: r =>
    if isDigitC c3 && isDigitC c4 && bAfter r then some (digitsVal ['2', '0', c3, c4]) else none
  | _ => none

/-- Alternative `0[6-9]` with its trailing `\b`. -/
def alt0 (l : List Char) : Option Nat :=
  match l with
  | '0' :: c :: r =>
    if decide (54 ≤ c.toNat ∧ c.toNat ≤ 57) && bAfter r then some (digitsVal ['0', c]) else none
  | _ => none

/-- Alternative `1[0-9]` with its trailing `\b`. -/
def alt1 (l : List Char) : Option Nat :=
  match l with
  | '1' :: c :: r =>
    if isDigitC c && bAfter r then some (digitsVal ['1', c]) else none
  | _ => none

/-- Alternative `2[0-5]` with its trailing `\b`. -/
def alt2 (l : List Char) : Option Nat :=
  match l with
  | '2' :: c :: r =>
    if decide (48 ≤ c.toNat ∧ c.toNat ≤ 53) && bAfter r then some (digitsVal ['2', c]) else none
  | _ => none

/-- Ordered alternation of `re.search(r'\b(20\d{2}|0[6-9]|1[0-9]|2[0-5])\b', ...)`
tried at one position. -/
def altsB (l : List Char) : Option Nat :=
  match alt20 l with
  | some v => some v
  | none =>
    match alt0 l with
    | some v => some v
    | none =>
      match alt1 l with
      | some v => some v
      | none => alt2 l

/-- Left-to-right scan of the year regex of `parse_books.parse_date`.
`prev` is the character before the current position (for the leading `\b`;
every alternative starts with a digit, i.e. a word character, so the
boundary holds exactly when the previous character is absent or non-word). -/
def yearScanB : Option Char → List Char → Option Nat
  | _, [] => none
  | prev, c :: cs =>
    let boundary := match prev with | none => true | some p => !isWordC p
    if boundary then
      match altsB (c :: cs) with
      | some v => some v
      | none => yearScanB (some c) cs
    else yearScanB (some c) cs

/-- Embedding of `parse_books.parse_date` (lines 12-42): returns `some (year, month)` or
`none`; the empty string models Python's falsy text. -/
def parse_date_books (text : List Char) : Option (Nat × Option Nat) :=
  if text.isEmpty then none
  else
    let tl := trim (lowerL text)
    match yearScanB none tl with
    | none => none
    | some y0 =>
      let y := if y0 < 100 then (if y0 < 50 then 2000 + y0 else 1900 + y0) else y0
      some (y, firstMonth monthsB tl)

/-! ## Date Normalizer, preparsed variant (`parse_preparsed.parse_date`) -/

/-- The month table of `parse_preparsed.parse_date`, in source order (the
March keys are the mojibake spellings `m` `√` `§` `r` (`z`) exactly as the
file stores them). -/
def monthsP : List (List Char × Nat) :=
  [(lit ("jan"), 1), (lit ("januar"), 1),
   (lit ("feb"), 2), (lit ("februar"), 2),
   (lit ("m√§r"), 3), (lit ("m√§rz"), 3), (lit ("mar"), 3),
   (lit ("apr"), 4), (lit ("april"), 4),
   (lit ("mai"), 5),
   (lit ("jun"), 6), (lit ("juni"), 6),
   (lit ("jul"), 7), (lit ("juli"), 7),
   (lit ("aug"), 8), (lit ("august"), 8),
   (lit ("sep"), 9), (lit ("sept"), 9), (lit ("september"), 9),
   (lit ("okt"), 10), (lit ("oktober"), 10),
   (lit ("nov"), 11), (lit ("november"), 11),
   (lit ("dez"), 12), (lit ("dezember"), 12)]

/-- Python `str.rstrip('.')`. -/
def dropTrailingDots (l : List Char) : List Char :=
  (l.reverse.dropWhile (fun c => c = '.')).reverse

/-- Normalization `date_str.lower().strip().rstrip('.')` (line 44 of `parse_preparsed.py`). -/
def preNormalize (s : List Char) : List Char := dropTrailingDots (trim (lowerL s))

/-- Matcher for `re.match(r'(\d{4})-(\d{2})-\d{2}', ...)`: anchored prefix match, groups
returned as numbers. -/
def isoMatch : List Char → Option (Nat × Nat)
  | a :: b :: c :: d :: d1 :: e :: f :: d2 :: g :: h :: _ =>
    if d1 = '-' && d2 = '-' &&
       isDigitC a && isDigitC b && isDigitC c && isDigitC d &&
       isDigitC e && isDigitC f && isDigitC g && isDigitC h then
      some (digitsVal [a, b, c, d], digitsVal [e, f])
    else none
  | _ => none

/-- Alternative `\d{2}` with its trailing `\b`. -/
def altDD (l : List Char) : Option Nat :=
  match l with
  | c1 :: c2 :: r =>
    if isDigitC c1 && isDigitC c2 && bAfter r then some (digitsVal [c1, c2]) else none
  | _ => none

/-- Ordered alternation of `re.search(r'\b(20\d{2}|\d{2})\b', ...)` tried at
one position. -/
def altsP (l : List Char) : Option Nat :=
  match alt20 l with
  | some v => some v
  | none => altDD l

/-- Left-to-right scan of the year regex of `parse_preparsed.parse_date`. -/
def yearScanP : Option Char → List Char → Option Nat
  | _, [] => none
  | prev, c :: cs =>
    let boundary := match prev with | none => true | some p => !isWordC p
    if boundary then
      match altsP (c :: cs) with
      | some v => some v
      | none => yearScanP (some c) cs
    else yearScanP (some c) cs

/-- Embedding of `parse_preparsed.parse_date` (lines 16-67): returns `(year, month)`;
the empty string models Python's falsy `date_str` (including `None`). -/
def parse_date_pre (s : List Char) : Option Nat × Option Nat :=
  if s.isEmpty then (none, none)
  else
    let dl := preNormalize s
    match isoMatch dl with
    | some (y, m) => (some y, some m)
    | none =>
      let year :=
        match yearScanP none dl with
        | none => none
        | some y0 => some (if y0 < 100 then (if y0 < 50 then 2000 + y0 else 1900 + y0) else y0)
      (year, firstMonth monthsP dl)

/-! ## Series Extractor (`parse_books.extract_series_info`,
`parse_preparsed.extract_series_info`)

Each volume-marker regex is modelled as a pattern function returning the
numeric capture and the unconsumed rest.  `re.search` is done with
`re.IGNORECASE`, `re.sub` without flags (case-sensitively), exactly as in
the source; the `ci` flag selects between the two readings of the same
pattern. -/

/-- Match the literal word `w`, case-insensitively when `ci`. -/
def litMatch (ci : Bool) : List Char → List Char → Option (List Char)
  | [], l => some l
  | _ :: _, [] => none
  | p :: ps, c :: cs =>
    if (if ci then toLowerC c = toLowerC p else c = p) then litMatch ci ps cs else none

/-- Match one fixed character. -/
def charMatch (ch : Char) : List Char → Option (List Char)
  | c :: cs => if c = ch then some cs else none
  | [] => none

/-- Greedy `(\d+)` followed by a non-digit (or nothing): the maximal digit
run as a number. -/
def digitsMatch (l : List Char) : Option (Nat × List Char) :=
  let tk := l.takeWhile isDigitC
  if tk.isEmpty then none else some (digitsVal tk, l.dropWhile isDigitC)

/-- Greedy `\s+` (at least one whitespace character). -/
def wsPlusMatch : List Char → Option (List Char)
  | c :: cs => if isSpaceC c then some (cs.dropWhile isSpaceC) else none
  | [] => none

/-- Pattern `\(Band\s+(\d+)\)` at one position. -/
def p1Match (ci : Bool) (l : List Char) : Option (Nat × List Char) :=
  (charMatch '(' l).bind fun l1 =>
  (litMatch ci (lit ("Band")) l1).bind fun l2 =>
  (wsPlusMatch l2).bind fun l3 =>
  (digitsMatch l3).bind fun vr =>
  (charMatch ')' vr.2).map fun l5 => (vr.1, l5)

/-- Pattern `\((\d+)\.\s*Fall\)` at one position. -/
def p2Match (ci : Bool) (l : List Char) : Option (Nat × List Char) :=
  (charMatch '(' l).bind fun l1 =>
  (digitsMatch l1).bind fun vr =>
  (charMatch '.' vr.2).bind fun l3 =>
  (litMatch ci (lit ("Fall")) (l3.dropWhile isSpaceC)).bind fun l4 =>
  (charMatch ')' l4).map fun l5 => (vr.1, l5)

/-- Pattern `\(Fall\s+(\d+)\)` at one position. -/
def p3Match (ci : Bool) (l : List Char) : Option (Nat × List Char) :=
  (charMatch '(' l).bind fun l1 =>
  (litMatch ci (lit ("Fall")) l1).bind fun l2 =>
  (wsPlusMatch l2).bind fun l3 =>
  (digitsMatch l3).bind fun vr =>
  (charMatch ')' vr.2).map fun l5 => (vr.1, l5)

/-- Pattern `\s+\((\d+)\.\)` at one position (the fourth pattern, only in
`parse_books.py`). -/
def p4Match (_ci : Bool) (l : List Char) : Option (Nat × List Char) :=
  (wsPlusMatch l).bind fun l1 =>
  (charMatch '(' l1).bind fun l2 =>
  (digitsMatch l2).bind fun vr =>
  (charMatch '.' vr.2).bind fun l4 =>
  (charMatch ')' l4).map fun l5 => (vr.1, l5)

/-- Search `re.search`: value of the leftmost match of `m`. -/
def searchPat (m : List Char → Option (Nat × List Char)) : List Char → Option Nat
  | [] => none
  | c :: cs =>
    match m (c :: cs) with
    | some vr => some vr.1
    | none => searchPat m cs

/-- Substitution `re.sub(pattern, '', s)`: delete every non-overlapping leftmost match,
scanning left to right.  Every pattern above consumes at least one
character on success, so fuel `l.length` always suffices. -/
def subPat (m : List Char → Option (Nat × List Char)) : Nat → List Char → List Char
  | 0, l => l
  | _, [] => []
  | fuel + 1, c :: cs =>
    match m (c :: cs) with
    | some vr => subPat m fuel vr.2
    | none => c :: subPat m fuel cs

/-- The ordered pattern table of `parse_books.extract_series_info`:
each entry pairs the `re.IGNORECASE` search reading with the flagless
`re.sub` reading of the same pattern. -/
def seriesPatternsB : List ((List Char → Option (Nat × List Char)) × (List Char → Option (Nat × List Char))) :=
  [(p1Match true, p1Match false), (p2Match true, p2Match false),
   (p3Match true, p3Match false), (p4Match true, p4Match false)]

/-- The pattern table of `parse_preparsed.extract_series_info` (first three
patterns only). -/
def seriesPatternsPre : List ((List Char → Option (Nat × List Char)) × (List Char → Option (Nat × List Char))) :=
  [(p1Match true, p1Match false), (p2Match true, p2Match false),
   (p3Match true, p3Match false)]

/-- The `for pattern, action in series_patterns` loop: first pattern with a
case-insensitive match wins; its numeric capture becomes the volume and the
title is rewritten by the case-sensitive `re.sub` and stripped. -/
def seriesLoop : List ((List Char → Option (Nat × List Char)) × (List Char → Option (Nat × List Char))) → List Char → List Char × Option Nat
  | [], t => (t, none)
  | pr :: ps, t =>
    match searchPat pr.1 t with
    | some v => (trim (subPat pr.2 t.length t), some v)
    | none => seriesLoop ps t

/-- Embedding of `parse_books.extract_series_info` (lines 45-62). -/
def extract_series_infoL (title : List Char) : List Char × Option Nat :=
  seriesLoop seriesPatternsB title

/-- Embedding of `parse_preparsed.extract_series_info` (lines 70-91). -/
def extract_series_infoPre (title : List Char) : List Char × Option Nat :=
  seriesLoop seriesPatternsPre title

/-! ## Note/Location Classifier (`parse_preparsed.extract_location_from_notes`) -/

/-- Known place names of `extract_location_from_notes`, verbatim from the
file (two entries carry mojibake characters: `G` `√` `∂` `teborg`,
`Baskenland ` `‚` `Ä` `ì` ` Spanien`, `K` `√` `∂` `ln`). -/
def knownLocations : List (List Char) :=
  [lit ("Bergisch Gladbach"), lit ("Sydney"), lit ("England"), lit ("Frankreich"),
   lit ("Berlin"),
   lit ("Autorenteam"), lit ("Schweden"), lit ("G√∂teborg"),
   lit ("Baskenland ‚Äì Spanien"),
   lit ("Bonn-Arzt und Wissenschaftler"), lit ("Belfast"), lit ("K√∂ln")]

/-- Word `Fall` or `Band` at one position, case-insensitively, with trailing `\b`. -/
def fbAt (l : List Char) : Bool :=
  (match litMatch true (lit ("fall")) l with
   | some r => bAfter r
   | none => false) ||
  (match litMatch true (lit ("band")) l with
   | some r => bAfter r
   | none => false)

/-- Search `re.search(r'\b(Fall|Band)\b', notes, re.IGNORECASE)`: scan carrying the
previous character for the leading boundary (the pattern starts with a word
character). -/
def fbScan : Option Char → List Char → Bool
  | _, [] => false
  | prev, c :: cs =>
    let boundary := match prev with | none => true | some p => !isWordC p
    (boundary && fbAt (c :: cs)) || fbScan (some c) cs

/-- The character alternatives of the class in
`re.search(r'[...]|\d+\.|zum |Esther', notes)`, verbatim from the mojibake
file bytes (U+F8FF twice, `ü`, `ò`, `ê`, `ü`, `ë`, `ç`). -/
def emojiClass : List Char :=
  ['\uF8FF', 'ü', 'ò', 'ê', '\uF8FF', 'ü', 'ë', 'ç']

/-- Alternative `\d+\.` is searchable iff some digit is immediately followed by `.`. -/
def digitDot : List Char → Bool
  | c :: d :: rest => (isDigitC c && d = '.') || digitDot (d :: rest)
  | _ => false

/-- Search `re.search(r'[...]|\d+\.|zum |Esther', notes)` (line 126). -/
def emojiNumSearch (l : List Char) : Bool :=
  l.any (fun c => emojiClass.contains c) || digitDot l ||
  containsL (lit ("zum ")) l || containsL (lit ("Esther")) l

/-- Members of the class `[A-Za-z...\s-]` of line 130, with the mojibake
letters `√ § ∂ º Ñ ñ ú ü` verbatim from the file bytes. -/
def locClassChar (c : Char) : Bool :=
  isUpperA c || isLowerA c || isSpaceC c || c = '-' ||
  c = '√' || c = '§' || c = '∂' || c = 'º' ||
  c = 'Ñ' || c = 'ñ' || c = 'ú' || c = 'ü'

/-- Matcher for `re.match(r'^[A-Za-z...\s-]{2,30}$', notes)`. -/
def locShapeMatch (l : List Char) : Bool :=
  decide (2 ≤ l.length ∧ l.length ≤ 30) && l.all locClassChar

/-- Word count `len(notes.split())`: number of maximal non-whitespace runs. -/
def countWordsGo : Bool → List Char → Nat
  | _, [] => 0
  | inWord, c :: cs =>
    if isSpaceC c then countWordsGo false cs
    else (if inWord then 0 else 1) + countWordsGo true cs

def countWords (l : List Char) : Nat := countWordsGo false l

/-- Embedding of `parse_preparsed.extract_location_from_notes` (lines 94-133): returns
`(location, remaining_notes)`.  `none` models an absent `notes` field, and
`some []` the empty string (both falsy in Python). -/
def extract_location_from_notes (notes : Option (List Char)) : Option (List Char) × Option (List Char) :=
  match notes with
  | none => (none, none)
  | some s =>
    if s.isEmpty then (none, none)
    else
      let n := trim s
      if fbScan none n then (none, some n)
      else
        match knownLocations.find? (fun loc => decide (lowerL n = lowerL loc)) with
        | some loc => (some loc, none)
        | none =>
          if emojiNumSearch n then (none, some n)
          else if locShapeMatch n && decide (countWords n ≤ 4) then (some n, none)
          else (none, some n)

/-! ## Line/Record Splitter, free-text source (`parse_books.parse_book_line`) -/

/-- The canonical record produced by `parse_book_line` (and sorted by
`parse_books.main`). -/
structure Book where
  author : String
  title : String
  location : Option String
  series_volume : Option Nat
  year : Option Nat
  month : Option Nat
  notes : Option String
deriving DecidableEq

/-- Skip pattern `^\s*W\s+` for a fixed word `W`. -/
def wordSkip (w : List Char) (l : List Char) : Bool :=
  let d := l.dropWhile isSpaceC
  startsWithL w d &&
    (match d.drop w.length with
     | c :: _ => isSpaceC c
     | [] => false)

/-- Skip pattern `^\s*Die\s+[A-Z][a-z]+\s+`. -/
def dieSkip (l : List Char) : Bool :=
  let d := l.dropWhile isSpaceC
  startsWithL (lit ("Die")) d &&
    (match d.drop 3 with
     | c :: cs =>
       isSpaceC c &&
         (match cs.dropWhile isSpaceC with
          | u :: es =>
            isUpperA u &&
              !(es.takeWhile isLowerA).isEmpty &&
              (match es.dropWhile isLowerA with
               | c2 :: _ => isSpaceC c2
               | [] => false)
          | [] => false)
     | [] => false)

/-- Skip pattern `^\s*[A-Z][a-z]+,?\s+im\s+` (e.g. "Berlin, im Sommer"). -/
def imSkip (l : List Char) : Bool :=
  match l.dropWhile isSpaceC with
  | u :: rest =>
    isUpperA u &&
      !(rest.takeWhile isLowerA).isEmpty &&
      (let r1 := rest.dropWhile isLowerA
       let r2 := match r1 with
         | ',' :: t => t
         | _ => r1
       match r2 with
       | c :: cs =>
         isSpaceC c &&
           (match cs.dropWhile isSpaceC with
            | 'i' :: 'm' :: c2 :: _ => isSpaceC c2
            | _ => false)
       | [] => false)
  | [] => false

/-- The ordered skip cascade of `parse_book_line` (lines 74-94): the two
German words `Für` and `Während` appear in the file in their mojibake
spellings `F` `Ã` `¼` `r` and `W` `Ã` `¤` `hrend`. -/
def skipLine (l : List Char) : Bool :=
  startsWithL (lit (">>")) l ||
  wordSkip (lit ("Als")) l ||
  wordSkip (lit ("Ein")) l ||
  wordSkip (lit ("In")) l ||
  wordSkip (lit ("Sie")) l ||
  wordSkip (lit ("Er")) l ||
  dieSkip l ||
  wordSkip (lit ("Vom")) l ||
  wordSkip (lit ("Mit")) l ||
  wordSkip (lit ("FÃ¼r")) l ||
  wordSkip (lit ("Auf")) l ||
  wordSkip (lit ("Seit")) l ||
  wordSkip (lit ("Nach")) l ||
  wordSkip (lit ("WÃ¤hrend")) l ||
  imSkip l

/-- Pattern `\s*\(([^)]+)\)$`: optional whitespace, then a final parenthetical with
non-empty content free of `)`. Returns the content. -/
def restParenMatch (t : List Char) : Option (List Char) :=
  match t.dropWhile isSpaceC with
  | '(' :: u =>
    let content := u.takeWhile (fun c => c ≠ ')')
    if u.dropWhile (fun c => c ≠ ')') = [')'] && !content.isEmpty then some content
    else none
  | _ => none

/-- Matcher for `re.match(r'^(.+?)\s*\(([^)]+)\)$', author_part)`: the lazy group 1
takes the shortest non-empty prefix whose remainder matches
`\s*\(([^)]+)\)$`.  Returns `(group 1, group 2)`. -/
def authorLocScan : List Char → Option (List Char × List Char)
  | [] => none
  | c :: rest =>
    match restParenMatch rest with
    | some content => some ([c], content)
    | none => (authorLocScan rest).map (fun pr => (c :: pr.1, pr.2))

/-- Scanner for `re.findall(r'\(([^)]+)\)', rest)`, scanning left to right; the state
holds the reversed content accumulated since an opening parenthesis.  An
empty pair `()` does not match (the class is `+`), so its `(` is passed
over and scanning resumes at the `)`. -/
def parensAux : Option (List Char) → List Char → List (List Char)
  | none, [] => []
  | none, '(' :: rest => parensAux (some []) rest
  | none, _ :: rest => parensAux none rest
  | some _, [] => []
  | some acc, ')' :: rest =>
    -- an empty `()` does not match `[^)]+`; the engine passes the `(` and
    -- resumes at the `)`, which in the outer state is just skipped
    if acc.isEmpty then parensAux none rest
    else acc.reverse :: parensAux none rest
  | some acc, c :: rest => parensAux (some (c :: acc)) rest

/-- Substitution `re.sub(r'\([^)]+\)', '', rest)` under the same scanning discipline;
an unmatched opening parenthesis is emitted verbatim. -/
def subPAux : Option (List Char) → List Char → List Char
  | none, [] => []
  | none, '(' :: rest => subPAux (some []) rest
  | none, c :: rest => c :: subPAux none rest
  | some acc, [] => '(' :: acc.reverse
  | some acc, ')' :: rest =>
    -- an empty `()` does not match; the `(` and the `)` are both kept and
    -- scanning resumes after them
    if acc.isEmpty then '(' :: ')' :: subPAux none rest
    else subPAux none rest
  | some acc, c :: rest => subPAux (some (c :: acc)) rest

/-- Pattern `\s+` followed by body `x`, tried at one position: at least one
whitespace character, then `x` after the maximal whitespace run (every
body below starts with a non-whitespace character). -/
def wsThen (x : List Char → Bool) : List Char → Bool
  | c :: cs => isSpaceC c && x (cs.dropWhile isSpaceC)
  | [] => false

/-- Case-insensitive literal prefix check. -/
def startsWithCI (w : List Char) (l : List Char) : Bool :=
  (litMatch true w l).isSome

/-- Body `-[^-]+-` of the dash-delimited-aside note pattern. -/
def dashBody : List Char → Bool
  | '-' :: rest =>
    !(rest.takeWhile (fun c => c ≠ '-')).isEmpty &&
    !(rest.dropWhile (fun c => c ≠ '-')).isEmpty
  | _ => false

/-- The ordered trailing-note patterns of `parse_book_line` (lines
129-137), each as an at-one-position matcher for `\s+X.*$`.  The first
pattern's `X` is the mojibake character triple `ð` `Ÿ` `˜` exactly as the
file stores it. -/
def notePats : List (List Char → Bool) :=
  [wsThen (startsWithCI (lit ("ðŸ˜"))),
   wsThen (startsWithCI (lit ("TOP!"))),
   wsThen (startsWithCI (lit ("super!"))),
   wsThen (startsWithCI (lit ("nee!"))),
   wsThen (startsWithCI (lit ("zum heulen"))),
   wsThen dashBody,
   wsThen (startsWithCI (lit ("selbst")))]

/-- Leftmost position where `pat` matches: returns the prefix before the
match and the matched text (which runs to the end of the string, since
every note pattern ends in `.*$`). -/
def findSplit (pat : List Char → Bool) : List Char → Option (List Char × List Char)
  | [] => none
  | c :: cs =>
    if pat (c :: cs) then some ([], c :: cs)
    else (findSplit pat cs).map (fun pr => (c :: pr.1, pr.2))

/-- The note-pattern loop of `parse_book_line` (lines 139-146): the first
pattern in order that matches anywhere wins; the match (stripped) becomes
the note and the stripped prefix becomes the title. -/
def noteLoop : List (List Char → Bool) → List Char → List Char × Option (List Char)
  | [], s => (s, none)
  | p :: ps, s =>
    match findSplit p s with
    | some pr => (trim pr.1, some (trim pr.2))
    | none => noteLoop ps s

def noteSplit (s : List Char) : List Char × Option (List Char) :=
  noteLoop notePats s

/-- First truthy `parse_date` result over the parenthetical groups (lines
152-156). -/
def firstSome (f : List Char → Option (Nat × Option Nat)) : List (List Char) → Option (Nat × Option Nat)
  | [] => none
  | x :: xs =>
    match f x with
    | some r => some r
    | none => firstSome f xs

/-- Colon split used for `line.split(':', 1)`. -/
def spanC (p : Char → Bool) (l : List Char) : List Char × List Char :=
  (l.takeWhile p, l.dropWhile p)

/-- The body of `parse_book_line` after the colon split: `author_part` and
`rest` are already stripped (lines 109-176). -/
def buildBook (author_part rest : List Char) : Option Book :=
  let al := authorLocScan author_part
  let author := match al with | some pr => trim pr.1 | none => author_part
  let location := match al with | some pr => some (String.mk (trim pr.2)) | none => none
  let parentheticals := parensAux none rest
  let title_and_notes := trim (subPAux none rest)
  let tn := noteSplit title_and_notes
  let es := extract_series_infoL tn.1
  let date_info :=
    match firstSome parse_date_books parentheticals with
    | some r => some r
    | none =>
      match tn.2 with
      | some n => parse_date_books n
      | none => none
  let titleF := trim es.1
  if titleF.isEmpty || decide (titleF.length < 2) then none
  else
    some { author := String.mk author,
           title := String.mk titleF,
           location := location,
           series_volume := es.2,
           year := date_info.map (fun r => r.1),
           month := match date_info with | some r => r.2 | none => none,
           notes := tn.2.map String.mk }

/-- Embedding of `parse_books.parse_book_line` (lines 65-176). -/
def parse_book_line (line0 : String) : Option Book :=
  let line := trim line0.data
  if line.isEmpty then none
  else if skipLine line then none
  else if decide (line.length < 15) then none
  else
    let sp := spanC (fun c => c ≠ ':') line
    if sp.2.isEmpty then none
    else buildBook (trim sp.1) (trim sp.2.tail)

/-! ## Enrichment Merge (`parse_preparsed.process_book`, lines 238-252)

The record at merge time (`processed`) and the external lookup result
(`google_data`) are modelled with the exact field set the code
manipulates.  Python truthiness drives every branch: an empty string,
`None`, `0` and `[]` are all falsy. -/

/-- Truthiness of an optional string. -/
def truthyS : Option String → Bool
  | none => false
  | some s => !s.isEmpty

/-- Truthiness of an optional integer (`0` is falsy). -/
def truthyI : Option Int → Bool
  | none => false
  | some n => n ≠ 0

/-- Truthiness of a list (`[]` is falsy). -/
def truthyL (l : List String) : Bool := !l.isEmpty

/-- Rule `if not cur and ext: cur = ext` — fill only when the current value is
falsy and the external one truthy (the `description` rule, line 240). -/
def fillIf {α : Type} (t : α → Bool) (cur ext : α) : α :=
  if !t cur && t ext then ext else cur

/-- Rule `if ext: cur = ext` — overwrite whenever the external value is truthy
(the `cover_url` rule of line 244 and the metadata loop of lines 249-252). -/
def takeIf {α : Type} (t : α → Bool) (cur ext : α) : α :=
  if t ext then ext else cur

/-- The record as assembled by `process_book` just before the Google merge. -/
structure EBook where
  author : String
  title : String
  series_volume : Option Nat
  year : Option Nat
  month : Option Nat
  location : Option String
  notes : Option String
  description : Option String
  google_books_id : Option String
  publisher : Option String
  published_date : Option String
  page_count : Option Int
  categories : List String
  language : Option String
  isbn : Option String
  cover_url : Option String
deriving DecidableEq

/-- The external lookup result shape returned by `search_google_books`. -/
structure GBook where
  google_books_id : Option String
  description : Option String
  publisher : Option String
  published_date : Option String
  page_count : Option Int
  categories : List String
  language : Option String
  isbn : Option String
  cover_url : Option String
deriving DecidableEq

/-- The merge variant of `fetch_covers.enrich_books` (line 94):
`enriched_book.update(google_data)` overwrites every one of the nine
external fields unconditionally, even with falsy values. -/
def updateG (r : EBook) (g : GBook) : EBook :=
  { r with
    description := g.description,
    cover_url := g.cover_url,
    google_books_id := g.google_books_id,
    publisher := g.publisher,
    published_date := g.published_date,
    page_count := g.page_count,
    categories := g.categories,
    language := g.language,
    isbn := g.isbn }

/-- The Enrichment Merge: the body of `if google_data:` in `process_book`
(lines 238-252).  `description` is filled only if currently falsy;
`cover_url` and the seven metadata fields are overwritten whenever the
external value is truthy. -/
def mergeGoogle (r : EBook) (g : GBook) : EBook :=
  { r with
    description := fillIf truthyS r.description g.description,
    cover_url := takeIf truthyS r.cover_url g.cover_url,
    google_books_id := takeIf truthyS r.google_books_id g.google_books_id,
    publisher := takeIf truthyS r.publisher g.publisher,
    published_date := takeIf truthyS r.published_date g.published_date,
    page_count := takeIf truthyI r.page_count g.page_count,
    categories := takeIf truthyL r.categories g.categories,
    language := takeIf truthyS r.language g.language,
    isbn := takeIf truthyS r.isbn g.isbn }

/-! ## Global sort (`parse_books.main` lines 212-215,
`parse_preparsed.main` lines 340-343)

Both scripts sort with
`key=lambda x: (x['year'] if x['year'] else 9999, x['month'] if x['month'] else 99)`
using Python's stable `list.sort`.  The key uses truthiness, so a missing
(or zero) year maps to the sentinel `9999` and a missing (or zero) month
to `99`.  Stable insertion sort computes the same function as any stable
sort with this key. -/

/-- Sentinel `x['year'] if x['year'] else d` — Python truthiness on an optional
number. -/
def keyOr (v : Option Nat) (d : Nat) : Nat :=
  match v with
  | some y => if y = 0 then d else y
  | none => d

/-- The sort key of both `main` functions. -/
def sortKey (b : Book) : Nat × Nat := (keyOr b.year 9999, keyOr b.month 99)

/-- Lexicographic comparison of sort keys (Python tuple `<=`). -/
def pairLe (p q : Nat × Nat) : Bool :=
  decide (p.1 < q.1) || (decide (p.1 = q.1) && decide (p.2 ≤ q.2))

/-- Stable insertion of `x` into an already sorted list: `x` goes before
the first element whose key is not strictly smaller. -/
def insertB (x : Book) : List Book → List Book
  | [] => [x]
  | y :: ys => if pairLe (sortKey x) (sortKey y) then x :: y :: ys else y :: insertB x ys

/-- Embedding of `processed_books.sort(key=...)`: the stable sort by `sortKey`. -/
def sortBooks : List Book → List Book
  | [] => []
  | x :: xs => insertB x (sortBooks xs)

/-- Modelled from the spec: the comparison `(year ?? +∞, month ?? +∞)` of
§6 — `none` (missing year/month) sorts strictly after every known value.
Used only to compare the specified sort with the implemented one. -/
def ltInf : Option Nat → Option Nat → Bool
  | some a, some b => decide (a < b)
  | some _, none => true
  | none, _ => false

/-- Modelled from the spec: lexicographic `≤` on `(year ?? +∞, month ?? +∞)`
keys. -/
def pairLeInf (p q : Option Nat × Option Nat) : Bool :=
  ltInf p.1 q.1 || (decide (p.1 = q.1) && (ltInf p.2 q.2 || decide (p.2 = q.2)))

/-- Modelled from the spec: stable insertion under `pairLeInf`. -/
def insertInf (x : Book) : List Book → List Book
  | [] => [x]
  | y :: ys =>
    if pairLeInf (x.year, x.month) (y.year, y.month) then x :: y :: ys
    else y :: insertInf x ys

/-- Modelled from the spec: the stable sort by `(year ?? +∞, month ?? +∞)`
ascending that §6 of the spec describes. -/
def sortSpecInf : List Book → List Book
  | [] => []
  | x :: xs => insertInf x (sortSpecInf xs)

/-! ## Claim C1 -/

/-- C1: the free-text splitter applied to the exact line
`"Kepler, Lars (Bergisch Gladbach): Der Hypnotiseur (Jan 2015) TOP!"`
returns a record (not a rejection) with author `"Kepler, Lars"`, location
`"Bergisch Gladbach"`, title `"Der Hypnotiseur"`, year `2015`, month `1`,
note `"TOP!"`, and no series volume. -/
theorem claim_C1 :
    parse_book_line ("Kepler, Lars (Bergisch Gladbach): Der Hypnotiseur (Jan 2015) TOP!") =
      some { author := "Kepler, Lars", title := "Der Hypnotiseur",
             location := some ("Bergisch Gladbach"), series_volume := none,
             year := some 2015, month := some 1, notes := some ("TOP!") } := by
  decide

/-! ## Claims C2 and C6 (Enrichment Merge) -/

theorem fillIf_idem {α : Type} (t : α → Bool) (c e : α) :
    fillIf t (fillIf t c e) e = fillIf t c e := by
  cases hc : t c <;> cases he : t e <;> simp [fillIf, hc, he]

theorem takeIf_idem {α : Type} (t : α → Bool) (c e : α) :
    takeIf t (takeIf t c e) e = takeIf t c e := by
  cases he : t e <;> simp [takeIf, he]

/-- C6: the Enrichment Merge is idempotent — merging the same external
lookup result a second time changes nothing. -/
theorem claim_C6 : ∀ (r : EBook) (g : GBook), mergeGoogle (mergeGoogle r g) g = mergeGoogle r g := by
  intro r g
  cases r
  simp [mergeGoogle, fillIf_idem, takeIf_idem]

/-- A record whose `cover_url` is already set, for the C2 counterexample. -/
def rCover : EBook :=
  { author := "a", title := "t", series_volume := none, year := none, month := none,
    location := none, notes := none, description := some ("d"),
    google_books_id := none, publisher := none, published_date := none,
    page_count := none, categories := [], language := none, isbn := none,
    cover_url := some ("https://a") }

/-- An external result carrying a different cover, for the C2 counterexample. -/
def gCover : GBook :=
  { google_books_id := none, description := none, publisher := none,
    published_date := none, page_count := none, categories := [],
    language := none, isbn := none, cover_url := some ("https://b") }

/-- C2 counterexample: the merge does NOT set `cover_url` "only when the
record's current value is empty" — here the record's cover is non-empty
and the merge still replaces it with the external value.  Moreover the
`enrich_books` merge variant cited by the claim even clears the record's
non-empty description when the external one is absent. -/
theorem claim_C2_counterexample :
    truthyS rCover.cover_url = true ∧ truthyS gCover.cover_url = true ∧
    (mergeGoogle rCover gCover).cover_url = some ("https://b") ∧
    (mergeGoogle rCover gCover).cover_url ≠ rCover.cover_url ∧
    truthyS rCover.description = true ∧
    (updateG rCover gCover).description = none ∧
    (updateG rCover gCover).description ≠ rCover.description := by
  decide

/-- C2 (amended): in the Enrichment Merge of `process_book`, `description`
is set only when the record's current value is empty and the external one
non-empty (a non-empty description is never cleared or replaced), while
`cover_url` is overwritten whenever the external value is non-empty,
regardless of the record's current value (never cleared when the external
value is empty). -/
theorem claim_C2 : ∀ (r : EBook) (g : GBook),
    (truthyS r.description = true → (mergeGoogle r g).description = r.description) ∧
    (truthyS g.description = false → (mergeGoogle r g).description = r.description) ∧
    (truthyS r.description = false → truthyS g.description = true →
      (mergeGoogle r g).description = g.description) ∧
    (truthyS g.cover_url = true → (mergeGoogle r g).cover_url = g.cover_url) ∧
    (truthyS g.cover_url = false → (mergeGoogle r g).cover_url = r.cover_url) := by
  intro r g
  refine ⟨fun h => ?_, fun h => ?_, fun h1 h2 => ?_, fun h => ?_, fun h => ?_⟩ <;>
    simp [mergeGoogle, fillIf, takeIf, *]

/-- C2 witness: the amended merge rules evaluated on concrete records. -/
theorem claim_C2_witness :
    (mergeGoogle rCover gCover).description = rCover.description ∧
    (mergeGoogle rCover gCover).cover_url = gCover.cover_url := by
  exact ⟨(claim_C2 rCover gCover).1 (by decide), (claim_C2 rCover gCover).2.2.2.1 (by decide)⟩

/-! ## Claim C3 (Series Extractor) -/

theorem seriesLoop_of_none :
    ∀ (ps : List ((List Char → Option (Nat × List Char)) × (List Char → Option (Nat × List Char))))
      (t : List Char),
      (∀ pr ∈ ps, searchPat pr.1 t = none) → seriesLoop ps t = (t, none) := by
  intro ps
  induction ps with
  | nil => intro t _; rfl
  | cons p ps ih =>
    intro t h
    simp only [seriesLoop, h p (List.mem_cons_self p ps)]
    exact ih t (fun q hq => h q (List.mem_cons_of_mem p hq))

theorem seriesLoop_first :
    ∀ (pre : List ((List Char → Option (Nat × List Char)) × (List Char → Option (Nat × List Char))))
      (pr : (List Char → Option (Nat × List Char)) × (List Char → Option (Nat × List Char)))
      (post : List ((List Char → Option (Nat × List Char)) × (List Char → Option (Nat × List Char))))
      (t : List Char) (v : Nat),
      (∀ q ∈ pre, searchPat q.1 t = none) → searchPat pr.1 t = some v →
      seriesLoop (pre ++ pr :: post) t = (trim (subPat pr.2 t.length t), some v) := by
  intro pre
  induction pre with
  | nil =>
    intro pr post t v _ hm
    simp only [List.nil_append, seriesLoop, hm]
  | cons q qs ih =>
    intro pr post t v hn hm
    simp only [List.cons_append, seriesLoop, hn q (List.mem_cons_self q qs)]
    exact ih pr post t v (fun q2 hq2 => hn q2 (List.mem_cons_of_mem q hq2)) hm

/-- C3 counterexample: the claim fails on two counts.  First,
"the returned clean title no longer contains the matched volume-marker
text" is false: `re.search` runs with `re.IGNORECASE` but `re.sub` runs
without flags, so the marker `(band 7)` is matched (volume `7` extracted)
yet retained verbatim in the returned title.  Second, "exactly one marker
is stripped per title" is false: `re.sub` deletes every occurrence of the
winning pattern, so both `(Band 1)` and `(Band 2)` are removed from one
title. -/
theorem claim_C3_counterexample :
    (extract_series_infoL (lit ("Foo (band 7)"))).2 = some 7 ∧
    (extract_series_infoL (lit ("Foo (band 7)"))).1 = lit ("Foo (band 7)") ∧
    extract_series_infoL (lit ("A (Band 1) B (Band 2)")) = (lit ("A  B"), some 1) := by
  decide

/-- C3 (amended): if no volume-marker pattern matches (case-insensitively),
the title is returned unchanged with volume `none`; otherwise the volume is
the numeric capture of the first matching pattern and the returned title is
the original title with every *case-sensitive* non-overlapping occurrence
of that pattern deleted and the ends trimmed — so a marker matching only
case-insensitively is retained, and several case-sensitive occurrences of
the winning pattern are all stripped, not exactly one.  This holds for
both the free-text and the preparsed Series Extractor. -/
theorem claim_C3 :
    (∀ t, (∀ pr ∈ seriesPatternsB, searchPat pr.1 t = none) →
      extract_series_infoL t = (t, none)) ∧
    (∀ t, (∀ pr ∈ seriesPatternsPre, searchPat pr.1 t = none) →
      extract_series_infoPre t = (t, none)) ∧
    (∀ t v pre pr post, seriesPatternsB = pre ++ pr :: post →
      (∀ q ∈ pre, searchPat q.1 t = none) → searchPat pr.1 t = some v →
      extract_series_infoL t = (trim (subPat pr.2 t.length t), some v)) ∧
    (∀ t v pre pr post, seriesPatternsPre = pre ++ pr :: post →
      (∀ q ∈ pre, searchPat q.1 t = none) → searchPat pr.1 t = some v →
      extract_series_infoPre t = (trim (subPat pr.2 t.length t), some v)) := by
  refine ⟨fun t h => ?_, fun t h => ?_, fun t v pre pr post he hn hm => ?_,
    fun t v pre pr post he hn hm => ?_⟩
  · exact seriesLoop_of_none seriesPatternsB t h
  · exact seriesLoop_of_none seriesPatternsPre t h
  · unfold extract_series_infoL
    rw [he]
    exact seriesLoop_first pre pr post t v hn hm
  · unfold extract_series_infoPre
    rw [he]
    exact seriesLoop_first pre pr post t v hn hm

/-- C3 witness: the amended positive clause evaluated on
`"Der Hypnotiseur (Band 1)"` (first pattern, case-sensitive occurrence:
the marker is stripped and volume `1` extracted). -/
theorem claim_C3_witness :
    extract_series_infoL (lit ("Der Hypnotiseur (Band 1)")) = (lit ("Der Hypnotiseur"), some 1) := by
  have h := claim_C3.2.2.1 (lit ("Der Hypnotiseur (Band 1)")) 1 []
    (p1Match true, p1Match false)
    [(p2Match true, p2Match false), (p3Match true, p3Match false), (p4Match true, p4Match false)]
    rfl (by intro q hq; cases hq) (by decide)
  exact h.trans (by decide)

/-! ## Claim C5 (Note/Location Classifier) -/

/-- C5: the Note/Location Classifier is total and mutually exclusive — on
absent or empty input both outputs are `none`; on any other input exactly
one of `(location, note)` is non-`none`. -/
theorem claim_C5 : ∀ ns : Option (List Char),
    (ns = none ∨ ns = some [] → extract_location_from_notes ns = (none, none)) ∧
    (∀ s, ns = some s → s ≠ [] →
      ((extract_location_from_notes ns).1 = none ∧ (extract_location_from_notes ns).2 ≠ none) ∨
      ((extract_location_from_notes ns).1 ≠ none ∧ (extract_location_from_notes ns).2 = none)) := by
  intro ns
  constructor
  · rintro (rfl | rfl) <;> rfl
  · rintro s rfl hne
    simp only [extract_location_from_notes]
    rw [if_neg (by simpa using hne)]
    by_cases h2 : fbScan none (trim s) = true
    · simp [h2]
    · rw [if_neg h2]
      rcases hfind : knownLocations.find? (fun loc => decide (lowerL (trim s) = lowerL loc)) with _ | loc
      · by_cases h3 : emojiNumSearch (trim s) = true
        · simp [h3]
        · rw [if_neg h3]
          by_cases h4 : (locShapeMatch (trim s) && decide (countWords (trim s) ≤ 4)) = true
          · simp [h4]
          · simp [h4]
      · simp

/-- C5 witness: the classifier evaluated on absent input and on the
non-empty input `"Sydney"`. -/
theorem claim_C5_witness :
    extract_location_from_notes none = (none, none) ∧
    (((extract_location_from_notes (some (lit ("Sydney")))).1 = none ∧
       (extract_location_from_notes (some (lit ("Sydney")))).2 ≠ none) ∨
     ((extract_location_from_notes (some (lit ("Sydney")))).1 ≠ none ∧
       (extract_location_from_notes (some (lit ("Sydney")))).2 = none)) :=
  ⟨(claim_C5 none).1 (Or.inl rfl),
   (claim_C5 (some (lit ("Sydney")))).2 (lit ("Sydney")) rfl (by decide)⟩

/-! ## Claims C7 and C10 (Date Normalizer ranges) -/

theorem digit_le {c : Char} (h : isDigitC c = true) : digitVal c ≤ 9 := by
  simp only [isDigitC, decide_eq_true_eq] at h
  unfold digitVal
  omega

theorem alt20_bound {l : List Char} {v : Nat} (h : alt20 l = some v) :
    2000 ≤ v ∧ v ≤ 2099 := by
  unfold alt20 at h
  split at h
  · rename_i c3 c4 r
    split at h
    · rename_i hcond
      simp only [Bool.and_eq_true] at hcond
      obtain ⟨⟨h3, h4⟩, _⟩ := hcond
      have e3 := digit_le h3
      have e4 := digit_le h4
      simp only [Option.some.injEq] at h
      subst h
      simp only [digitsVal, List.foldl,
        show digitVal '2' = 2 from by decide, show digitVal '0' = 0 from by decide]
      omega
    · exact absurd h (by simp)
  · exact absurd h (by simp)

theorem alt0_bound {l : List Char} {v : Nat} (h : alt0 l = some v) :
    6 ≤ v ∧ v ≤ 9 := by
  unfold alt0 at h
  split at h
  · rename_i c r
    split at h
    · rename_i hcond
      simp only [Bool.and_eq_true, decide_eq_true_eq] at hcond
      obtain ⟨hc, _⟩ := hcond
      simp only [Option.some.injEq] at h
      subst h
      simp only [digitsVal, List.foldl, show digitVal '0' = 0 from by decide]
      unfold digitVal
      omega
    · exact absurd h (by simp)
  · exact absurd h (by simp)

theorem alt1_bound {l : List Char} {v : Nat} (h : alt1 l = some v) :
    10 ≤ v ∧ v ≤ 19 := by
  unfold alt1 at h
  split at h
  · rename_i c r
    split at h
    · rename_i hcond
      simp only [Bool.and_eq_true] at hcond
      obtain ⟨hc, _⟩ := hcond
      have := digit_le hc
      simp only [Option.some.injEq] at h
      subst h
      simp only [digitsVal, List.foldl, show digitVal '1' = 1 from by decide]
      omega
    · exact absurd h (by simp)
  · exact absurd h (by simp)

theorem alt2_bound {l : List Char} {v : Nat} (h : alt2 l = some v) :
    20 ≤ v ∧ v ≤ 25 := by
  unfold alt2 at h
  split at h
  · rename_i c r
    split at h
    · rename_i hcond
      simp only [Bool.and_eq_true, decide_eq_true_eq] at hcond
      obtain ⟨hc, _⟩ := hcond
      simp only [Option.some.injEq] at h
      subst h
      simp only [digitsVal, List.foldl, show digitVal '2' = 2 from by decide]
      unfold digitVal
      omega
    · exact absurd h (by simp)
  · exact absurd h (by simp)

/-- Any value produced by the free-text year alternation lies in
`[2000,2099]` (four-digit token) or `[6,25]` (two-digit token). -/
theorem altsB_bound {l : List Char} {v : Nat} (h : altsB l = some v) :
    (2000 ≤ v ∧ v ≤ 2099) ∨ (6 ≤ v ∧ v ≤ 25) := by
  unfold altsB at h
  split at h
  · rename_i h20
    cases h
    exact Or.inl (alt20_bound h20)
  · split at h
    · rename_i h0
      cases h
      have := alt0_bound h0
      omega
    · split at h
      · rename_i h1
        cases h
        have := alt1_bound h1
        omega
      · have := alt2_bound h
        omega

theorem yearScanB_bound :
    ∀ (l : List Char) (prev : Option Char) (v : Nat),
      yearScanB prev l = some v → (2000 ≤ v ∧ v ≤ 2099) ∨ (6 ≤ v ∧ v ≤ 25) := by
  intro l
  induction l with
  | nil => intro prev v h; simp [yearScanB] at h
  | cons c cs ih =>
    intro prev v h
    simp only [yearScanB] at h
    split at h
    · split at h
      · rename_i halts
        cases h
        exact altsB_bound halts
      · exact ih (some c) v h
    · exact ih (some c) v h

theorem firstMonth_mem :
    ∀ (tbl : List (List Char × Nat)) (l : List Char) (v : Nat),
      firstMonth tbl l = some v → v ∈ tbl.map Prod.snd := by
  intro tbl
  induction tbl with
  | nil => intro l v h; simp [firstMonth] at h
  | cons p ps ih =>
    intro l v h
    simp only [firstMonth] at h
    split at h
    · cases h; simp
    · simpa using Or.inr (by simpa using ih l v h)

/-- C10: the free-text Date Normalizer returns no date or a year in
`[2000, 2099]`; its `1900 + N` branch for two-digit tokens `≥ 50` is
unreachable, because every two-digit token value admitted by the year
regex is at most `25`. -/
theorem claim_C10 :
    (∀ (t : List Char) (y : Nat) (m : Option Nat),
      parse_date_books t = some (y, m) → 2000 ≤ y ∧ y ≤ 2099) ∧
    (∀ (t : List Char) (v : Nat), yearScanB none t = some v → v < 100 → v < 50) := by
  constructor
  · intro t y m h
    unfold parse_date_books at h
    dsimp only at h
    split at h
    · exact absurd h (by simp)
    · split at h
      · exact absurd h (by simp)
      · rename_i y0 hscan
        have hb := yearScanB_bound _ _ _ hscan
        simp only [Option.some.injEq, Prod.mk.injEq] at h
        obtain ⟨hy, _⟩ := h
        subst hy
        split
        · split <;> omega
        · omega
  · intro t v h hlt
    have := yearScanB_bound _ _ _ h
    omega

/-- C10 witness: the year bound and the two-digit bound evaluated on
concrete fragments. -/
theorem claim_C10_witness :
    (parse_date_books (lit ("Jan 2015")) = some (2015, some 1) ∧ 2000 ≤ 2015 ∧ 2015 ≤ 2099) ∧
    (yearScanB none (lit ("mai 14")) = some 14 ∧ 14 < 50) :=
  ⟨⟨by decide, claim_C10.1 (lit ("Jan 2015")) 2015 (some 1) (by decide)⟩,
   ⟨by decide, claim_C10.2 (lit ("mai 14")) 14 (by decide) (by decide)⟩⟩

theorem isoMatch_month_le {l : List Char} {y m : Nat} (h : isoMatch l = some (y, m)) :
    m ≤ 99 := by
  unfold isoMatch at h
  split at h
  · split at h
    · rename_i hcond
      simp only [Bool.and_eq_true] at hcond
      obtain ⟨⟨⟨⟨⟨⟨⟨⟨⟨_, _⟩, _⟩, _⟩, _⟩, _⟩, he⟩, hf⟩, _⟩, _⟩ := hcond
      have h1 := digit_le he
      have h2 := digit_le hf
      simp only [Option.some.injEq, Prod.mk.injEq] at h
      obtain ⟨_, hm⟩ := h
      subst hm
      simp only [digitsVal, List.foldl]
      omega
    · exact absurd h (by simp)
  · exact absurd h (by simp)

/-- C7 counterexample: the preparsed Date Normalizer can return a month
outside `1–12` — the unvalidated `MM` digits of an ISO-shaped fragment are
returned verbatim. -/
theorem claim_C7_counterexample :
    parse_date_pre (lit ("2015-13-01")) = (some 2015, some 13) ∧ ¬(13 ≤ 12) := by
  decide

/-- C7 (amended): the free-text Date Normalizer's month is always `none`
or in `1–12`; the preparsed Date Normalizer's month is in `1–12` whenever
the normalized fragment does not match the ISO prefix `YYYY-MM-DD`, and in
general is only bounded by the raw two-digit capture, i.e. `0–99`. -/
theorem claim_C7 :
    (∀ (t : List Char) (y m : Nat), parse_date_books t = some (y, some m) → 1 ≤ m ∧ m ≤ 12) ∧
    (∀ (s : List Char) (m : Nat), isoMatch (preNormalize s) = none →
      (parse_date_pre s).2 = some m → 1 ≤ m ∧ m ≤ 12) ∧
    (∀ (s : List Char) (m : Nat), (parse_date_pre s).2 = some m → m ≤ 99) := by
  refine ⟨fun t y m h => ?_, fun s m hiso h => ?_, fun s m h => ?_⟩
  · unfold parse_date_books at h
    dsimp only at h
    split at h
    · exact absurd h (by simp)
    · split at h
      · exact absurd h (by simp)
      · simp only [Option.some.injEq, Prod.mk.injEq] at h
        obtain ⟨_, hm⟩ := h
        have := firstMonth_mem monthsB _ m hm
        have hall : ∀ v ∈ monthsB.map Prod.snd, 1 ≤ v ∧ v ≤ 12 := by decide
        exact hall m this
  · unfold parse_date_pre at h
    dsimp only at h
    split at h
    · simp at h
    · split at h
      · rename_i p hi
        rw [hiso] at hi
        cases hi
      · simp only at h
        have := firstMonth_mem monthsP _ m h
        have hall : ∀ v ∈ monthsP.map Prod.snd, 1 ≤ v ∧ v ≤ 12 := by decide
        exact hall m this
  · unfold parse_date_pre at h
    dsimp only at h
    split at h
    · simp at h
    · split at h
      · rename_i y1 m1 hi
        simp only [Option.some.injEq] at h
        subst h
        exact isoMatch_month_le hi
      · simp only at h
        have := firstMonth_mem monthsP _ m h
        have hall : ∀ v ∈ monthsP.map Prod.snd, v ≤ 99 := by decide
        exact hall m this

/-- C7 witness: the month bounds evaluated on concrete fragments. -/
theorem claim_C7_witness :
    (parse_date_books (lit ("Jan 2015")) = some (2015, some 1) ∧ 1 ≤ 1 ∧ 1 ≤ 12) ∧
    ((parse_date_pre (lit ("Januar 2025"))).2 = some 1 ∧ 1 ≤ 99) :=
  ⟨⟨by decide, claim_C7.1 (lit ("Jan 2015")) 2015 1 (by decide)⟩,
   ⟨by decide, claim_C7.2.2 (lit ("Januar 2025")) 1 (by decide)⟩⟩

/-! ## Claim C8 (global stable sort) -/

theorem pairLe_iff {p q : Nat × Nat} :
    pairLe p q = true ↔ (p.1 < q.1 ∨ (p.1 = q.1 ∧ p.2 ≤ q.2)) := by
  simp [pairLe]

theorem pairLe_total (p q : Nat × Nat) : pairLe p q = true ∨ pairLe q p = true := by
  simp only [pairLe_iff]
  omega

theorem pairLe_trans {p q r : Nat × Nat}
    (h1 : pairLe p q = true) (h2 : pairLe q r = true) : pairLe p r = true := by
  simp only [pairLe_iff] at h1 h2 ⊢
  omega

theorem pairLe_false_of {p q : Nat × Nat} (h : pairLe p q = false) :
    q ≠ p ∧ pairLe q p = true := by
  constructor
  · intro he
    rw [he] at h
    have hr : pairLe p p = true := by simp [pairLe_iff]
    rw [hr] at h
    cases h
  · rcases pairLe_total p q with h1 | h1
    · rw [h1] at h; cases h
    · exact h1

theorem insertB_perm (x : Book) : ∀ l : List Book, (insertB x l).Perm (x :: l) := by
  intro l
  induction l with
  | nil => rfl
  | cons y ys ih =>
    simp only [insertB]
    split
    · rfl
    · exact (ih.cons y).trans (List.Perm.swap x y ys)

theorem sortBooks_perm : ∀ l : List Book, (sortBooks l).Perm l := by
  intro l
  induction l with
  | nil => rfl
  | cons x xs ih => exact (insertB_perm x (sortBooks xs)).trans (ih.cons x)

theorem insertB_sorted (x : Book) :
    ∀ l : List Book,
      List.Pairwise (fun a b => pairLe (sortKey a) (sortKey b) = true) l →
      List.Pairwise (fun a b => pairLe (sortKey a) (sortKey b) = true) (insertB x l) := by
  intro l
  induction l with
  | nil => intro _; simp [insertB]
  | cons y ys ih =>
    intro h
    rcases List.pairwise_cons.mp h with ⟨hy, hys⟩
    simp only [insertB]
    by_cases hle : pairLe (sortKey x) (sortKey y) = true
    · rw [if_pos hle]
      refine List.pairwise_cons.mpr ⟨?_, h⟩
      intro z hz
      rcases List.mem_cons.mp hz with rfl | hz2
      · exact hle
      · exact pairLe_trans hle (hy z hz2)
    · rw [if_neg hle]
      refine List.pairwise_cons.mpr ⟨?_, ih hys⟩
      intro z hz
      have hz3 := (insertB_perm x ys).mem_iff.mp hz
      rcases List.mem_cons.mp hz3 with rfl | hz4
      · exact (pairLe_false_of (Bool.eq_false_iff.mpr hle)).2
      · exact hy z hz4

theorem sortBooks_sorted :
    ∀ l : List Book,
      List.Pairwise (fun a b => pairLe (sortKey a) (sortKey b) = true) (sortBooks l) := by
  intro l
  induction l with
  | nil => simp [sortBooks]
  | cons x xs ih => exact insertB_sorted x (sortBooks xs) ih

theorem filter_insertB (k : Nat × Nat) (x : Book) :
    ∀ l : List Book,
      (insertB x l).filter (fun b => decide (sortKey b = k)) =
        if sortKey x = k then x :: l.filter (fun b => decide (sortKey b = k))
        else l.filter (fun b => decide (sortKey b = k)) := by
  intro l
  induction l with
  | nil => by_cases hx : sortKey x = k <;> simp [insertB, List.filter, hx]
  | cons y ys ih =>
    simp only [insertB]
    by_cases hle : pairLe (sortKey x) (sortKey y) = true
    · rw [if_pos hle]
      by_cases hx : sortKey x = k <;> simp [List.filter_cons, hx]
    · rw [if_neg hle]
      have hne : sortKey y ≠ sortKey x :=
        (pairLe_false_of (Bool.eq_false_iff.mpr hle)).1
      by_cases hy : sortKey y = k <;> by_cases hx : sortKey x = k
      · exact absurd (hx.trans hy.symm) (fun he => hne (by rw [he]))
      · simp [List.filter_cons, hy, hx, ih]
      · simp [List.filter_cons, hy, hx, ih]
      · simp [List.filter_cons, hy, hx, ih]

/-- A record with no read date at all. -/
def bookNoYear : Book :=
  { author := "n", title := "tn", location := none, series_volume := none,
    year := none, month := none, notes := none }

/-- A record with the (producible) year `9999`: the preparsed Date
Normalizer maps the fragment `"9999-01-01"` to year `9999`. -/
def book9999 : Book :=
  { author := "k", title := "tk", location := none, series_volume := none,
    year := some 9999, month := none, notes := none }

/-- C8 counterexample: the implemented sort keys are the sentinels
`(year ?? 9999, month ?? 99)`, not `(year ?? +∞, month ?? +∞)`.  A record
with the known year `9999` (producible from the ISO fragment
`"9999-01-01"`) ties with a dateless record instead of preceding it, so
the output differs from the stable sort the claim describes. -/
theorem claim_C8_counterexample :
    (parse_date_pre (lit ("9999-01-01"))).1 = some 9999 ∧
    sortBooks [bookNoYear, book9999] = [bookNoYear, book9999] ∧
    sortSpecInf [bookNoYear, book9999] = [book9999, bookNoYear] ∧
    sortBooks [bookNoYear, book9999] ≠ sortSpecInf [bookNoYear, book9999] := by
  decide

/-- C8 (amended): the final output is the stable sort of the records by
the sentinel key `(year ?? 9999, month ?? 99)` ascending (Python
truthiness: a missing or zero year maps to `9999`, a missing or zero month
to `99`): the output is a permutation of the input, it is sorted by that
key, and records with equal keys keep their input order (the filtered
subsequence at every key value is preserved).  Records with missing
year/month therefore come after records with known smaller keys but tie
with records whose key equals the sentinel, rather than sorting after all
known values. -/
theorem claim_C8 : ∀ l : List Book,
    (sortBooks l).Perm l ∧
    List.Pairwise (fun a b => pairLe (sortKey a) (sortKey b) = true) (sortBooks l) ∧
    (∀ k : Nat × Nat,
      (sortBooks l).filter (fun b => decide (sortKey b = k)) =
        l.filter (fun b => decide (sortKey b = k))) := by
  intro l
  refine ⟨sortBooks_perm l, sortBooks_sorted l, ?_⟩
  intro k
  induction l with
  | nil => rfl
  | cons x xs ih =>
    simp only [sortBooks]
    rw [filter_insertB k x (sortBooks xs)]
    by_cases hx : sortKey x = k <;> simp [List.filter_cons, hx, ih]

/-! ## Claim C4 (ISO-date priority of the preparsed Date Normalizer) -/

/-- Decimal digit to its character. -/
def toDigitC (d : Nat) : Char := Char.ofNat (48 + d)

/-- Zero-padded two-digit rendering. -/
def pad2 (n : Nat) : List Char := [toDigitC (n / 10 % 10), toDigitC (n % 10)]

/-- Zero-padded four-digit rendering. -/
def pad4 (n : Nat) : List Char :=
  [toDigitC (n / 1000 % 10), toDigitC (n / 100 % 10), toDigitC (n / 10 % 10), toDigitC (n % 10)]

theorem digitC_facts : ∀ k, k < 10 →
    toLowerC (toDigitC k) = toDigitC k ∧ isSpaceC (toDigitC k) = false ∧
    isDigitC (toDigitC k) = true ∧ decide (toDigitC k = '.') = false ∧
    digitVal (toDigitC k) = k := by
  decide

theorem dropWhile_eq_self_of (p : Char → Bool) :
    ∀ l : List Char, (∀ c ∈ l, p c = false) → l.dropWhile p = l := by
  intro l h
  cases l with
  | nil => rfl
  | cons c cs => simp [List.dropWhile_cons, h c (List.mem_cons_self c cs)]

theorem trim_eq_self_of : ∀ l : List Char, (∀ c ∈ l, isSpaceC c = false) → trim l = l := by
  intro l h
  unfold trim trimLeft trimRight
  rw [dropWhile_eq_self_of isSpaceC l h]
  rw [dropWhile_eq_self_of isSpaceC l.reverse (fun c hc => h c (List.mem_reverse.mp hc))]
  exact List.reverse_reverse l

theorem dropDots_eq_self_of :
    ∀ l : List Char, (∀ c ∈ l, decide (c = '.') = false) → dropTrailingDots l = l := by
  intro l h
  unfold dropTrailingDots
  rw [dropWhile_eq_self_of _ l.reverse (fun c hc => h c (List.mem_reverse.mp hc))]
  exact List.reverse_reverse l

theorem lowerL_eq_self_of : ∀ l : List Char, (∀ c ∈ l, toLowerC c = c) → lowerL l = l := by
  intro l
  induction l with
  | nil => intro _; rfl
  | cons c cs ih =>
    intro h
    simp only [lowerL, List.map_cons]
    rw [h c (List.mem_cons_self c cs)]
    have := ih (fun x hx => h x (List.mem_cons_of_mem c hx))
    simp only [lowerL] at this
    rw [this]

/-- The ISO fast path of `parse_preparsed.parse_date` on an arbitrary
digit-rendered `YYYY-MM-DD` fragment. -/
theorem iso_core (a b c d e f g h : Nat)
    (ha : a < 10) (hb : b < 10) (hc : c < 10) (hd : d < 10)
    (he : e < 10) (hf : f < 10) (hg : g < 10) (hh : h < 10) :
    parse_date_pre
        [toDigitC a, toDigitC b, toDigitC c, toDigitC d, '-',
         toDigitC e, toDigitC f, '-', toDigitC g, toDigitC h] =
      (some (1000 * a + 100 * b + 10 * c + d), some (10 * e + f)) := by
  have fa := digitC_facts a ha
  have fb := digitC_facts b hb
  have fc := digitC_facts c hc
  have fd := digitC_facts d hd
  have fe := digitC_facts e he
  have ff := digitC_facts f hf
  have fg := digitC_facts g hg
  have fh := digitC_facts h hh
  have hmem : ∀ ch ∈ [toDigitC a, toDigitC b, toDigitC c, toDigitC d, '-',
      toDigitC e, toDigitC f, '-', toDigitC g, toDigitC h],
      toLowerC ch = ch ∧ isSpaceC ch = false ∧ decide (ch = '.') = false := by
    intro ch hch
    simp only [List.mem_cons, List.not_mem_nil, or_false] at hch
    rcases hch with rfl | rfl | rfl | rfl | rfl | rfl | rfl | rfl | rfl | rfl
    · exact ⟨fa.1, fa.2.1, fa.2.2.2.1⟩
    · exact ⟨fb.1, fb.2.1, fb.2.2.2.1⟩
    · exact ⟨fc.1, fc.2.1, fc.2.2.2.1⟩
    · exact ⟨fd.1, fd.2.1, fd.2.2.2.1⟩
    · exact ⟨by decide, by decide, by decide⟩
    · exact ⟨fe.1, fe.2.1, fe.2.2.2.1⟩
    · exact ⟨ff.1, ff.2.1, ff.2.2.2.1⟩
    · exact ⟨by decide, by decide, by decide⟩
    · exact ⟨fg.1, fg.2.1, fg.2.2.2.1⟩
    · exact ⟨fh.1, fh.2.1, fh.2.2.2.1⟩
  have hnorm : preNormalize
      [toDigitC a, toDigitC b, toDigitC c, toDigitC d, '-',
       toDigitC e, toDigitC f, '-', toDigitC g, toDigitC h] =
      [toDigitC a, toDigitC b, toDigitC c, toDigitC d, '-',
       toDigitC e, toDigitC f, '-', toDigitC g, toDigitC h] := by
    unfold preNormalize
    rw [lowerL_eq_self_of _ (fun ch hch => (hmem ch hch).1)]
    rw [trim_eq_self_of _ (fun ch hch => (hmem ch hch).2.1)]
    rw [dropDots_eq_self_of _ (fun ch hch => (hmem ch hch).2.2)]
  have hiso : isoMatch
      [toDigitC a, toDigitC b, toDigitC c, toDigitC d, '-',
       toDigitC e, toDigitC f, '-', toDigitC g, toDigitC h] =
      some (1000 * a + 100 * b + 10 * c + d, 10 * e + f) := by
    show (if (decide (('-' : Char) = '-') && decide (('-' : Char) = '-') &&
        isDigitC (toDigitC a) && isDigitC (toDigitC b) && isDigitC (toDigitC c) &&
        isDigitC (toDigitC d) && isDigitC (toDigitC e) && isDigitC (toDigitC f) &&
        isDigitC (toDigitC g) && isDigitC (toDigitC h)) = true then
      some (digitsVal [toDigitC a, toDigitC b, toDigitC c, toDigitC d],
        digitsVal [toDigitC e, toDigitC f])
      else none) = some (1000 * a + 100 * b + 10 * c + d, 10 * e + f)
    rw [if_pos (by simp [fa.2.2.1, fb.2.2.1, fc.2.2.1, fd.2.2.1,
      fe.2.2.1, ff.2.2.1, fg.2.2.1, fh.2.2.1])]
    simp only [digitsVal, List.foldl, fa.2.2.2.2, fb.2.2.2.2, fc.2.2.2.2, fd.2.2.2.2,
      fe.2.2.2.2, ff.2.2.2.2, Option.some.injEq, Prod.mk.injEq]
    omega
  unfold parse_date_pre
  rw [if_neg (by simp)]
  dsimp only
  rw [hnorm, hiso]

/-- C4 counterexample: the `YYYY-MM` form of the claim is not recognized
by the ISO branch of the preparsed Date Normalizer (its regex demands a
`-DD` part), so `"2015-11"` falls through to the year heuristic and loses
the month. -/
theorem claim_C4_counterexample :
    parse_date_pre (lit ("2015-11")) = (some 2015, none) ∧
    ((some 2015, none) : Option Nat × Option Nat) ≠ (some 2015, some 11) := by
  decide

/-- C4 (amended): for every valid ISO fragment of the `YYYY-MM-DD` form
the preparsed Date Normalizer returns exactly `(YYYY, MM)` — the ISO match
takes priority over all other year/month heuristics.  The `YYYY-MM` form
is not recognized by the ISO branch, and the free-text Date Normalizer
has no ISO branch at all. -/
theorem claim_C4 : ∀ y m d : Nat, y ≤ 9999 → 1 ≤ m → m ≤ 12 → 1 ≤ d → d ≤ 31 →
    parse_date_pre (pad4 y ++ '-' :: (pad2 m ++ '-' :: pad2 d)) = (some y, some m) := by
  intro y m d hy hm1 hm2 hd1 hd2
  have hlist : pad4 y ++ '-' :: (pad2 m ++ '-' :: pad2 d) =
      [toDigitC (y / 1000 % 10), toDigitC (y / 100 % 10), toDigitC (y / 10 % 10),
       toDigitC (y % 10), '-', toDigitC (m / 10 % 10), toDigitC (m % 10), '-',
       toDigitC (d / 10 % 10), toDigitC (d % 10)] := by
    simp [pad4, pad2]
  rw [hlist]
  have h := iso_core (y / 1000 % 10) (y / 100 % 10) (y / 10 % 10) (y % 10)
    (m / 10 % 10) (m % 10) (d / 10 % 10) (d % 10)
    (by omega) (by omega) (by omega) (by omega) (by omega) (by omega) (by omega) (by omega)
  rw [h]
  have e1 : 1000 * (y / 1000 % 10) + 100 * (y / 100 % 10) + 10 * (y / 10 % 10) + y % 10 = y := by
    omega
  have e2 : 10 * (m / 10 % 10) + m % 10 = m := by omega
  rw [e1, e2]

/-- C4 witness: the amended ISO rule evaluated at the concrete valid date
`2015-11-06`. -/
theorem claim_C4_witness :
    parse_date_pre (lit ("2015-11-06")) = (some 2015, some 11) := by
  have h := claim_C4 2015 11 6 (by decide) (by decide) (by decide) (by decide) (by decide)
  have e : pad4 2015 ++ '-' :: (pad2 11 ++ '-' :: pad2 6) = lit ("2015-11-06") := by decide
  rw [e] at h
  exact h

/-! ## Claim C9 (free-text location comes from the author part only) -/

theorem takeWhile_all (p : Char → Bool) :
    ∀ (l : List Char) (c : Char), c ∈ l.takeWhile p → p c = true := by
  intro l
  induction l with
  | nil => intro c hc; simp at hc
  | cons x xs ih =>
    intro c hc
    rw [List.takeWhile_cons] at hc
    by_cases hx : p x = true
    · rw [if_pos hx] at hc
      rcases List.mem_cons.mp hc with rfl | hc2
      · exact hx
      · exact ih c hc2
    · rw [if_neg hx] at hc
      simp at hc

theorem takeWhile_dropWhile_eq (p : Char → Bool) :
    ∀ l : List Char, l.takeWhile p ++ l.dropWhile p = l := by
  intro l
  induction l with
  | nil => rfl
  | cons x xs ih =>
    rw [List.takeWhile_cons, List.dropWhile_cons]
    by_cases hx : p x = true
    · rw [if_pos hx, if_pos hx, List.cons_append, ih]
    · rw [if_neg hx, if_neg hx, List.nil_append]

/-- Soundness of the `\s*\(([^)]+)\)$` matcher: a successful match
decomposes the input into optional whitespace, an opening parenthesis, a
non-empty content free of `)`, and a final closing parenthesis. -/
theorem restParenMatch_sound {t content : List Char} (h : restParenMatch t = some content) :
    ∃ ws, t = ws ++ '(' :: (content ++ [')']) ∧ (∀ c ∈ ws, isSpaceC c = true) ∧
      content ≠ [] ∧ (∀ c ∈ content, c ≠ ')') := by
  unfold restParenMatch at h
  split at h
  · rename_i u heq
    dsimp only at h
    split at h
    · rename_i hcond
      simp only [Option.some.injEq] at h
      subst h
      simp only [Bool.and_eq_true, decide_eq_true_eq, Bool.not_eq_true'] at hcond
      obtain ⟨hdrop, hne⟩ := hcond
      refine ⟨t.takeWhile isSpaceC, ?_, ?_, ?_, ?_⟩
      · have h1 := takeWhile_dropWhile_eq isSpaceC t
        have h2 := takeWhile_dropWhile_eq (fun c => decide (c ≠ ')')) u
        rw [hdrop] at h2
        calc t = t.takeWhile isSpaceC ++ t.dropWhile isSpaceC := h1.symm
          _ = t.takeWhile isSpaceC ++ '(' :: u := by rw [heq]
          _ = t.takeWhile isSpaceC ++ '(' :: (u.takeWhile (fun c => decide (c ≠ ')')) ++ [')']) := by
              rw [h2]
      · exact takeWhile_all isSpaceC t
      · intro hc
        rw [hc] at hne
        simp at hne
      · intro c hc
        have := takeWhile_all (fun c => decide (c ≠ ')')) u c hc
        simpa using this
    · exact absurd h (by simp)
  · exact absurd h (by simp)

/-- Soundness of the lazy `^(.+?)\s*\(([^)]+)\)$` matcher: group 1 is a
non-empty prefix, followed by whitespace, an opening parenthesis, the
non-empty `)`-free group 2, and the final closing parenthesis. -/
theorem authorLocScan_sound :
    ∀ (s g1 g2 : List Char), authorLocScan s = some (g1, g2) →
      g1 ≠ [] ∧ g2 ≠ [] ∧ (∀ c ∈ g2, c ≠ ')') ∧
      ∃ ws, s = g1 ++ ws ++ '(' :: (g2 ++ [')']) ∧ (∀ c ∈ ws, isSpaceC c = true) := by
  intro s
  induction s with
  | nil => intro g1 g2 h; simp [authorLocScan] at h
  | cons c rest ih =>
    intro g1 g2 h
    simp only [authorLocScan] at h
    split at h
    · rename_i content heq
      simp only [Option.some.injEq, Prod.mk.injEq] at h
      obtain ⟨h1, h2⟩ := h
      subst h1
      subst h2
      obtain ⟨ws, hdec, hws, hne, hnp⟩ := restParenMatch_sound heq
      exact ⟨by simp, hne, hnp, ws, by rw [hdec]; simp, hws⟩
    · rw [Option.map_eq_some'] at h
      obtain ⟨⟨g1t, g2t⟩, hsc, heq2⟩ := h
      simp only [Prod.mk.injEq] at heq2
      obtain ⟨h1, h2⟩ := heq2
      subst h1
      subst h2
      obtain ⟨hne1, hne2, hnp, ws, hdec, hws⟩ := ih g1t g2t hsc
      exact ⟨by simp, hne2, hnp, ws, by rw [hdec]; simp, hws⟩

/-- The text before the first colon of a (stripped) free-text line, itself
stripped: `parts[0].strip()` for `parts = line.split(':', 1)`. -/
def authorPartOf (line : String) : List Char :=
  trim ((trim line.data).takeWhile (fun c => c ≠ ':'))

/-- C9: in the free-text splitter the location of a produced record comes
only from the author part — it is non-`none` exactly when the stripped
author part (before the first colon) ends in a parenthetical, whose
trimmed content becomes the location.  The Note/Location Classifier is
never applied on this path, so the trailing note is not reclassified, and
a free-text record can carry both a location and a note at once, as the
Kepler line shows. -/
theorem claim_C9 :
    (∀ (line : String) (b : Book) (loc : String),
      parse_book_line line = some b → b.location = some loc →
      ∃ a c, authorPartOf line = a ++ '(' :: (c ++ [')']) ∧ a ≠ [] ∧ c ≠ [] ∧
        (∀ ch ∈ c, ch ≠ ')') ∧ loc = String.mk (trim c)) ∧
    ((parse_book_line ("Kepler, Lars (Bergisch Gladbach): Der Hypnotiseur (Jan 2015) TOP!")).map
        (fun b => (b.location, b.notes)) =
      some (some ("Bergisch Gladbach"), some ("TOP!"))) := by
  constructor
  · intro line b loc h hloc
    unfold parse_book_line at h
    dsimp only at h
    split at h
    · exact absurd h (by simp)
    · split at h
      · exact absurd h (by simp)
      · split at h
        · exact absurd h (by simp)
        · split at h
          · exact absurd h (by simp)
          · unfold buildBook at h
            dsimp only at h
            rcases hal : authorLocScan (trim (spanC (fun c => c ≠ ':') (trim line.data)).1) with _ | ⟨g1, g2⟩
            · rw [hal] at h
              dsimp only at h
              split at h
              · exact absurd h (by simp)
              · simp only [Option.some.injEq] at h
                subst h
                simp at hloc
            · rw [hal] at h
              dsimp only at h
              split at h
              · exact absurd h (by simp)
              · simp only [Option.some.injEq] at h
                subst h
                simp only [Option.some.injEq] at hloc
                obtain ⟨hg1, hg2, hnp, ws, hdec, hws⟩ := authorLocScan_sound _ g1 g2 hal
                refine ⟨g1 ++ ws, g2, ?_, ?_, hg2, hnp, hloc.symm⟩
                · have : authorPartOf line =
                      trim (spanC (fun c => c ≠ ':') (trim line.data)).1 := rfl
                  rw [this, hdec, List.append_assoc]
                · simp [hg1]
  · decide

/-- C9 witness: the author-part decomposition obtained from the produced
Kepler record. -/
theorem claim_C9_witness :
    ∃ a c,
      authorPartOf ("Kepler, Lars (Bergisch Gladbach): Der Hypnotiseur (Jan 2015) TOP!") =
        a ++ '(' :: (c ++ [')']) ∧ a ≠ [] ∧ c ≠ [] ∧ (∀ ch ∈ c, ch ≠ ')') ∧
      ("Bergisch Gladbach" : String) = String.mk (trim c) :=
  claim_C9.1 ("Kepler, Lars (Bergisch Gladbach): Der Hypnotiseur (Jan 2015) TOP!")
    { author := "Kepler, Lars", title := "Der Hypnotiseur",
      location := some ("Bergisch Gladbach"), series_volume := none,
      year := some 2015, month := some 1, notes := some ("TOP!") }
    ("Bergisch Gladbach") (by decide) rfl

end BookLib
